import Mathlib

/-!
Verification development for the mClaw agentic runtime core.

The definitions below are shallow embeddings of the Go source:

* memory store (`pkg/memory` store file): `encodeEmbedding`, `decodeEmbedding`,
  `Search`, `Update`, `Prune`;
* `pkg/memory/extractor.go`: `Extract`'s validation pass and `CosineSimilarity`;
* consolidator and `pkg/memory/engine.go`: `Consolidate`, `processFact`;
* `pkg/heartbeat/service.go`: the atomic `processing` flag protocol of
  `checkHeartbeat`;
* `pkg/agent/model_switcher.go`: `maybeResetDaily`, `switchToNext`, `Chat`;
* `pkg/agent/loop.go`: the summarization trigger and `summarizeSession`.

Machine floating point (float32 / float64) is modelled at two levels, each
chosen per theorem: IEEE-754 bit patterns as natural numbers below 2^32 for
the byte-encoding claims, and exact real / rational arithmetic for the
similarity and scoring claims.
-/

namespace MClaw

/-! ## Embedding blob encoding (store file, encodeEmbedding / decodeEmbedding)

A float32 value is represented by its IEEE-754 bit pattern, a natural number
below 2^32 (`math.Float32bits` is a bijection between float32 values and
uint32, so element-for-element equality of vectors is equality of the bit
patterns). A byte is a natural number below 256. -/

/-- Little-endian four-byte serialization of one 32-bit word, exactly the four
bytes written by binary.LittleEndian.PutUint32. -/
def toLEBytes (x : Nat) : List Nat :=
  [x % 256, x / 256 % 256, x / 65536 % 256, x / 16777216 % 256]

/-- Embedding of encodeEmbedding: empty vector maps to the empty blob (Go
returns nil), otherwise each element contributes its four little-endian
bytes. -/
def encodeEmbedding (emb : List Nat) : List Nat :=
  if emb.isEmpty then [] else emb.flatMap toLEBytes

/-- Recombine a blob four bytes at a time, little-endian, exactly as the
decode loop reads binary.LittleEndian.Uint32 at offset i*4. -/
def fromLEChunks : List Nat → List Nat
  | b0 :: b1 :: b2 :: b3 :: rest =>
      (b0 + 256 * b1 + 65536 * b2 + 16777216 * b3) :: fromLEChunks rest
  | _ => []

/-- Embedding of decodeEmbedding: empty or non-multiple-of-four blobs map to
the empty vector (Go returns nil), otherwise the blob is decoded word by
word. -/
def decodeEmbedding (data : List Nat) : List Nat :=
  if data.isEmpty || data.length % 4 != 0 then [] else fromLEChunks data

lemma toLEBytes_length (x : Nat) : (toLEBytes x).length = 4 := rfl

lemma flatMap_toLEBytes_length (v : List Nat) :
    (v.flatMap toLEBytes).length = 4 * v.length := by
  induction v with
  | nil => rfl
  | cons x xs ih =>
      simp [List.flatMap_cons, toLEBytes, ih]
      ring

lemma fromLEChunks_toLEBytes (x : Nat) (hx : x < 4294967296) (rest : List Nat) :
    fromLEChunks (toLEBytes x ++ rest) = x :: fromLEChunks rest := by
  simp only [toLEBytes, List.cons_append, List.nil_append, fromLEChunks]
  congr 1
  omega

/-- Helper: decoding the concatenated little-endian chunks of a vector of
32-bit words recovers the vector. -/
lemma fromLEChunks_flatMap (v : List Nat) (hv : ∀ x ∈ v, x < 4294967296) :
    fromLEChunks (v.flatMap toLEBytes) = v := by
  induction v with
  | nil => rfl
  | cons x xs ih =>
      rw [List.flatMap_cons, fromLEChunks_toLEBytes x (hv x (by simp))]
      rw [ih (fun y hy => hv y (by simp [hy]))]

lemma decode_encode (v : List Nat) (hv : ∀ x ∈ v, x < 4294967296) :
    decodeEmbedding (encodeEmbedding v) = v := by
  cases v with
  | nil => rfl
  | cons x xs =>
      have hne : ((x :: xs).flatMap toLEBytes).isEmpty = false := by
        simp [List.flatMap_cons, toLEBytes]
      have hmod : ((x :: xs).flatMap toLEBytes).length % 4 = 0 := by
        rw [flatMap_toLEBytes_length]; omega
      rw [encodeEmbedding]
      simp only [List.isEmpty_cons, Bool.false_eq_true, if_false]
      rw [decodeEmbedding]
      simp only [hne, hmod, Bool.false_or]
      norm_num
      exact fromLEChunks_flatMap _ hv

/-! ## Extractor validation (pkg/memory/extractor.go, Extract)

Only the post-parse validation pass of Extract is modelled: the LLM call and
json.Unmarshal are external, so the parsed fact list is the model's input.
Importance (a float64 parsed from JSON, never NaN since JSON cannot encode
one) is modelled as an exact rational. -/

/-- Mirror of the Go struct ExtractedFact. -/
structure ExtractedFact where
  content : String
  category : String
  importance : Rat
deriving DecidableEq, Repr

/-- Memory category constants from the memory types file. -/
def CategoryPreference : String := "preference"

/-- Memory category constant for plain facts; also the default category. -/
def CategoryFact : String := "fact"

/-- Memory category constant for background context. -/
def CategoryContext : String := "context"

/-- Memory category constant for user instructions. -/
def CategoryInstruction : String := "instruction"

/-- Per-fact validation step of Extract: clamp importance into [0,1] and
default an empty category to "fact". -/
def fixFact (f : ExtractedFact) : ExtractedFact :=
  let f1 := if f.importance < 0 then { f with importance := 0 } else f
  let f2 := if f1.importance > 1 then { f1 with importance := 1 } else f1
  if f2.category = "" then { f2 with category := CategoryFact } else f2

/-- Validation-and-truncation pass of Extract over the parsed fact list:
drop facts with empty content, fix the rest in order, keep at most five. -/
def validateFacts (parsed : List ExtractedFact) : List ExtractedFact :=
  let valid := (parsed.filter (fun f => f.content != "")).map fixFact
  if valid.length > 5 then valid.take 5 else valid

lemma fixFact_content (f : ExtractedFact) : (fixFact f).content = f.content := by
  simp only [fixFact]
  split <;> split <;> split <;> rfl

lemma fixFact_importance_mem (f : ExtractedFact) :
    0 ≤ (fixFact f).importance ∧ (fixFact f).importance ≤ 1 := by
  rw [fixFact]
  by_cases h1 : f.importance < 0
  · rw [if_pos h1,
      if_neg (show ¬({ f with importance := 0 } : ExtractedFact).importance > 1
        by norm_num)]
    split <;>
      exact ⟨show (0 : ℚ) ≤ 0 from le_refl 0, show (0 : ℚ) ≤ 1 by norm_num⟩
  · rw [if_neg h1]
    by_cases h2 : f.importance > 1
    · rw [if_pos h2]
      split <;>
        exact ⟨show (0 : ℚ) ≤ 1 by norm_num, show (1 : ℚ) ≤ 1 from le_refl 1⟩
    · rw [if_neg h2]
      split <;>
        exact ⟨show (0 : ℚ) ≤ f.importance by linarith,
          show f.importance ≤ (1 : ℚ) by linarith⟩

lemma fixFact_category_ne (f : ExtractedFact) : (fixFact f).category ≠ "" := by
  simp only [fixFact]
  split <;> split <;> split <;> simp_all [CategoryFact]

/-- C6: for every float32 vector (given by its IEEE-754 bit patterns, each
below 2^32), decodeEmbedding inverts encodeEmbedding exactly, element for
element, and the encoded blob has len(v)*4 bytes, each element serialized as
four little-endian bytes. -/
theorem C6_encode_decode_roundtrip (v : List Nat) (hv : ∀ x ∈ v, x < 4294967296) :
    decodeEmbedding (encodeEmbedding v) = v ∧
      (encodeEmbedding v).length = v.length * 4 ∧
      encodeEmbedding v = (if v.isEmpty then [] else v.flatMap toLEBytes) := by
  refine ⟨decode_encode v hv, ?_, rfl⟩
  cases v with
  | nil => rfl
  | cons x xs =>
      rw [encodeEmbedding]
      simp only [List.isEmpty_cons, Bool.false_eq_true, if_false]
      rw [flatMap_toLEBytes_length]
      ring

/-- Witness for C6 at the concrete vector with bit patterns [1, 4294967295]. -/
theorem C6_encode_decode_roundtrip_witness :
    decodeEmbedding (encodeEmbedding [1, 4294967295]) = [1, 4294967295] ∧
      (encodeEmbedding [1, 4294967295]).length = 2 * 4 ∧
      encodeEmbedding [1, 4294967295] =
        (if ([1, 4294967295] : List Nat).isEmpty then []
         else [1, 4294967295].flatMap toLEBytes) :=
  C6_encode_decode_roundtrip [1, 4294967295] (by decide)

/-- C5 as stated is false on the code: Extract's validation pass never checks
the category against the allowed set, so a parsed fact with category
"banana" is returned unchanged. Concrete counterexample input: one parsed
fact with non-empty content, importance 1 and category "banana". -/
theorem C5_extract_category_counterexample :
    (validateFacts [⟨"likes x", "banana", 1⟩]).map ExtractedFact.category =
        ["banana"] ∧
      "banana" ≠ CategoryPreference ∧ "banana" ≠ CategoryFact ∧
        "banana" ≠ CategoryContext ∧ "banana" ≠ CategoryInstruction := by
  refine ⟨?_, by decide, by decide, by decide, by decide⟩
  rfl

/-- C5 amended: every list returned by Extract's validation pass has at most
five facts, and every fact has non-empty content, importance within [0,1]
and a non-empty category (an empty category is defaulted to "fact"); the
category is however not restricted to the four-value set. -/
theorem C5_extract_validation (parsed : List ExtractedFact) :
    (validateFacts parsed).length ≤ 5 ∧
      ∀ f ∈ validateFacts parsed,
        f.content ≠ "" ∧ 0 ≤ f.importance ∧ f.importance ≤ 1 ∧ f.category ≠ "" := by
  constructor
  · rw [validateFacts]
    split
    · exact List.length_take_le 5 _
    · omega
  · intro f hf
    have hf' : f ∈ (parsed.filter (fun g => g.content != "")).map fixFact := by
      rw [validateFacts] at hf
      split at hf
      · exact List.mem_of_mem_take hf
      · exact hf
    rcases List.mem_map.mp hf' with ⟨g, hg, rfl⟩
    have hgc : g.content ≠ "" := by
      have h2 := List.of_mem_filter hg
      simp only [bne_iff_ne, ne_eq] at h2
      exact h2
    refine ⟨?_, (fixFact_importance_mem g).1, (fixFact_importance_mem g).2,
      fixFact_category_ne g⟩
    rw [fixFact_content]
    exact hgc

/-- Witness for C5's amended theorem at a two-fact parsed list with one empty
content entry and one out-of-range importance. -/
theorem C5_extract_validation_witness :
    (validateFacts [⟨"", "fact", 1⟩, ⟨"y", "", 7⟩]).length ≤ 5 ∧
      ∀ f ∈ validateFacts [⟨"", "fact", 1⟩, ⟨"y", "", 7⟩],
        f.content ≠ "" ∧ 0 ≤ f.importance ∧ f.importance ≤ 1 ∧ f.category ≠ "" :=
  C5_extract_validation [⟨"", "fact", 1⟩, ⟨"y", "", 7⟩]

/-! ## Consolidation (consolidator file, Consolidate; pkg/memory/engine.go,
processFact)

The LLM call inside Consolidate is external; its outcome is the model's
input: a transport error, an unparseable reply, or a parsed
ConsolidateResult. The action is a string in Go, so it is a string here. -/

/-- Consolidate action constant ADD. -/
def ActionAdd : String := "ADD"

/-- Consolidate action constant UPDATE. -/
def ActionUpdate : String := "UPDATE"

/-- Consolidate action constant DELETE. -/
def ActionDelete : String := "DELETE"

/-- Consolidate action constant NOOP. -/
def ActionNoop : String := "NOOP"

/-- Mirror of the Go struct ConsolidateResult. -/
structure ConsolidateResult where
  action : String
  targetId : String
  mergedContent : String
  reason : String
deriving DecidableEq, Repr

/-- Outcome of the consolidation LLM call, as seen by the Consolidate code
after provider.Chat and json.Unmarshal. -/
inductive LLMReply where
  | chatError
  | unparseable
  | reply (r : ConsolidateResult)
deriving DecidableEq, Repr

/-- Embedding of Consolidator.Consolidate: the returned pair carries the
ConsolidateResult and the flag recording whether the LLM was called; a
provider error is propagated as an error. The branch structure follows the
Go function line by line. -/
def consolidate (existingMemories : List String) (llm : LLMReply) :
    Except Unit (ConsolidateResult × Bool) :=
  if existingMemories.isEmpty then
    .ok (⟨ActionAdd, "", "", "No existing memories to compare"⟩, false)
  else
    match llm with
    | .chatError => .error ()
    | .unparseable =>
        .ok (⟨ActionAdd, "", "", "Parse failure, defaulting to ADD"⟩, true)
    | .reply r =>
        if r.action = ActionAdd ∨ r.action = ActionUpdate ∨
            r.action = ActionDelete ∨ r.action = ActionNoop then
          .ok (r, true)
        else
          .ok ({ r with action := ActionAdd,
                        reason := "Unknown action, defaulting to ADD" }, true)

/-- Store-level effect chosen by MemoryEngine.processFact for a consolidation
result. -/
inductive StoreAction where
  | addNew
  | updateMem (targetId content : String)
  | deleteMem (targetId : String)
  | noop
deriving DecidableEq, Repr

/-- Embedding of the action-dispatch switch at the end of
MemoryEngine.processFact: UPDATE without a target id or merged content falls
back to adding the fact as a new memory; DELETE without a target id and
unknown actions fall through to no-op. -/
def processFactAction (r : ConsolidateResult) : StoreAction :=
  if r.action = ActionAdd then .addNew
  else if r.action = ActionUpdate then
    if r.targetId = "" ∨ r.mergedContent = "" then .addNew
    else .updateMem r.targetId r.mergedContent
  else if r.action = ActionDelete then
    if r.targetId ≠ "" then .deleteMem r.targetId else .noop
  else .noop

/-- C4: consolidation defaults to ADD in every degenerate case: with no
similar memories the result is ADD with no LLM call; an unparseable LLM
reply yields ADD; a reply whose action is outside the four known actions
yields ADD; and an UPDATE with empty target id or empty merged content is
executed by processFact as an ADD of the new fact. -/
theorem C4_consolidate_defaults_to_add (mems : List String) (r : ConsolidateResult)
    (llm : LLMReply) :
    (∃ res, consolidate [] llm = .ok (res, false) ∧ res.action = ActionAdd) ∧
      (mems ≠ [] →
        ∃ res, consolidate mems .unparseable = .ok (res, true) ∧
          res.action = ActionAdd) ∧
      (mems ≠ [] →
        r.action ≠ ActionAdd → r.action ≠ ActionUpdate →
        r.action ≠ ActionDelete → r.action ≠ ActionNoop →
        ∃ res, consolidate mems (.reply r) = .ok (res, true) ∧
          res.action = ActionAdd) ∧
      (r.action = ActionUpdate → r.targetId = "" ∨ r.mergedContent = "" →
        processFactAction r = .addNew) := by
  refine ⟨⟨_, rfl, rfl⟩, ?_, ?_, ?_⟩
  · intro hne
    rw [consolidate]
    simp only [List.isEmpty_iff, hne, if_false]
    exact ⟨_, rfl, rfl⟩
  · intro hne h1 h2 h3 h4
    rw [consolidate]
    simp only [List.isEmpty_iff, hne, if_false]
    have : ¬(r.action = ActionAdd ∨ r.action = ActionUpdate ∨
        r.action = ActionDelete ∨ r.action = ActionNoop) := by
      simp [h1, h2, h3, h4]
    rw [if_neg this]
    exact ⟨_, rfl, rfl⟩
  · intro hupd hempty
    have hne : r.action ≠ ActionAdd := by
      rw [hupd]; decide
    rw [processFactAction, if_neg hne, if_pos hupd, if_pos hempty]

/-- Witness for C4 at a concrete memory list and a concrete UPDATE result
with empty target id and an LLM reply naming the unknown action "MERGE". -/
theorem C4_consolidate_defaults_to_add_witness :
    (∃ res, consolidate [] (.reply ⟨"MERGE", "", "", ""⟩) = .ok (res, false) ∧
        res.action = ActionAdd) ∧
      (∃ res, consolidate ["m1"] .unparseable = .ok (res, true) ∧
        res.action = ActionAdd) ∧
      (∃ res, consolidate ["m1"] (.reply ⟨"MERGE", "", "", ""⟩) = .ok (res, true) ∧
        res.action = ActionAdd) ∧
      processFactAction ⟨"UPDATE", "", "mc", ""⟩ = .addNew := by
  have h := C4_consolidate_defaults_to_add ["m1"] ⟨"MERGE", "", "", ""⟩
    (.reply ⟨"MERGE", "", "", ""⟩)
  have h2 := C4_consolidate_defaults_to_add ["m1"] ⟨"UPDATE", "", "mc", ""⟩
    (.reply ⟨"MERGE", "", "", ""⟩)
  refine ⟨h.1, h.2.1 (by decide), ?_, ?_⟩
  · exact h.2.2.1 (by decide) (by decide) (by decide) (by decide) (by decide)
  · exact h2.2.2.2 (by decide) (Or.inl (by decide))

/-! ## Heartbeat overlap guard (pkg/heartbeat/service.go, checkHeartbeat)

The atomic processing flag protocol is modelled as a transition system. A
tick event is the atomic head of checkHeartbeat: the CompareAndSwap of the
processing flag from false to true; when it succeeds a handler invocation
enters flight, when it fails the tick is skipped with the state unchanged.
A finish event is the deferred processing.Store(false) that runs when the
handler returns; it is only meaningful while a handler is in flight. -/

/-- State of the heartbeat overlap guard: the atomic processing flag and the
number of handler invocations currently in flight. -/
structure HBState where
  processing : Bool
  inFlight : Nat
deriving DecidableEq, Repr

/-- Events of the heartbeat guard protocol. -/
inductive HBEvent where
  | tick
  | finish
deriving DecidableEq, Repr

/-- One step of checkHeartbeat's flag protocol. On tick, the CAS(false, true)
either fails (flag already set: skip, no handler started) or succeeds (flag
set, handler enters flight). On finish, a running handler returns, leaves
flight and stores false into the flag; with no handler in flight the event
is a no-op. -/
def hbStep (s : HBState) : HBEvent → HBState
  | .tick => if s.processing then s else ⟨true, s.inFlight + 1⟩
  | .finish => if s.inFlight = 0 then s else ⟨false, s.inFlight - 1⟩

/-- Run the heartbeat guard from a state through a list of events. -/
def hbRun (s : HBState) : List HBEvent → HBState
  | [] => s
  | e :: es => hbRun (hbStep s e) es

/-- Initial heartbeat guard state: flag clear, no handler in flight. -/
def hbInit : HBState := ⟨false, 0⟩

/-- Inductive invariant of the guard: the in-flight count is one exactly when
the flag is set, zero otherwise. -/
def hbInv (s : HBState) : Prop := s.inFlight = if s.processing then 1 else 0

lemma hbInv_step (s : HBState) (hs : hbInv s) (e : HBEvent) : hbInv (hbStep s e) := by
  cases e <;> rw [hbStep] <;> rw [hbInv] at hs ⊢ <;>
    rcases s with ⟨p, n⟩ <;> cases p <;> simp_all

lemma hbInv_run (s : HBState) (hs : hbInv s) (es : List HBEvent) :
    hbInv (hbRun s es) := by
  induction es generalizing s with
  | nil => exact hs
  | cons e es ih => exact ih _ (hbInv_step s hs e)

/-- C2: along every interleaving of tick and handler-return events from the
initial state, at most one handler invocation is ever in flight; a tick that
arrives while the processing flag is still set leaves the state unchanged
(the handler is not invoked); and when the in-flight handler returns the
flag is clear. -/
theorem C2_heartbeat_no_overlap (es : List HBEvent) (s : HBState) :
    (hbRun hbInit es).inFlight ≤ 1 ∧
      (s.processing = true → hbStep s .tick = s) ∧
      (0 < s.inFlight → (hbStep s .finish).processing = false) := by
  refine ⟨?_, ?_, ?_⟩
  · have h := hbInv_run hbInit (by rw [hbInv]; rfl) es
    rw [hbInv] at h
    rw [h]
    split <;> omega
  · intro hp
    rw [hbStep, if_pos hp]
  · intro hn
    rw [hbStep, if_neg (by omega)]

/-- Witness for C2 on the interleaving tick, tick, finish, tick and on the
concrete state with the flag set and one handler in flight. -/
theorem C2_heartbeat_no_overlap_witness :
    (hbRun hbInit [.tick, .tick, .finish, .tick]).inFlight ≤ 1 ∧
      ((⟨true, 1⟩ : HBState).processing = true → hbStep ⟨true, 1⟩ .tick = ⟨true, 1⟩) ∧
      (0 < (⟨true, 1⟩ : HBState).inFlight →
        (hbStep ⟨true, 1⟩ .finish).processing = false) :=
  C2_heartbeat_no_overlap [.tick, .tick, .finish, .tick] ⟨true, 1⟩

/-! ## Model switcher (pkg/agent/model_switcher.go)

Providers are identified by the model name they were created for, and
providers.CreateProviderForModel is external fallible code, abstracted as a
predicate createOk telling for which model names creation succeeds.
time.Now().YearDay() is the integer input today; the sentinel -1 of
rateLimitDay is kept as in the source. -/

/-- Mutable state of ModelSwitcher. currentProviderModel records the model
the current provider was created for. -/
structure SwitcherState where
  primaryModel : String
  fallbackModels : List String
  currentModel : String
  currentProviderModel : String
  rateLimitDay : Int
deriving DecidableEq, Repr

/-- Embedding of ModelSwitcher.maybeResetDaily with today's day of year and
the provider-creation oracle as inputs; mirrors the early returns of the Go
function in order. -/
def maybeResetDaily (createOk : String → Bool) (today : Int) (s : SwitcherState) :
    SwitcherState :=
  if s.rateLimitDay < 0 then s
  else if today = s.rateLimitDay then s
  else if s.currentModel = s.primaryModel then { s with rateLimitDay := -1 }
  else if createOk s.primaryModel then
    { s with currentModel := s.primaryModel,
             currentProviderModel := s.primaryModel,
             rateLimitDay := -1 }
  else s

/-- Position of the current model in the fallback list, used by switchToNext:
from the primary the first fallback is chosen, otherwise the entry after the
current model's first occurrence in the list (empty if none). -/
def nextFallback (s : SwitcherState) : String :=
  if s.currentModel = s.primaryModel then s.fallbackModels.headD ""
  else
    match s.fallbackModels.indexOf? s.currentModel with
    | some i => s.fallbackModels.getD (i + 1) ""
    | none => ""

/-- Embedding of ModelSwitcher.switchToNext: none when no switch was made
(empty fallback list, no next model, or provider creation failure);
otherwise the state after committing the switch, with rateLimitDay set to
today. -/
def switchToNext (createOk : String → Bool) (today : Int) (s : SwitcherState) :
    Option SwitcherState :=
  if s.fallbackModels.isEmpty then none
  else
    let nextModel := nextFallback s
    if nextModel = "" then none
    else if createOk nextModel then
      some { s with currentModel := nextModel,
                    currentProviderModel := nextModel,
                    rateLimitDay := today }
    else none

/-- Outcome of one provider.Chat call, as distinguished by the switcher. -/
inductive ChatOutcome where
  | ok (response : String)
  | rateLimited
  | otherError
deriving DecidableEq, Repr

/-- Result of ModelSwitcher.Chat in the model: the final switcher state, the
models attempted in order, and the response if any. -/
structure ChatTrace where
  state : SwitcherState
  attempts : List String
  response : Option String
deriving DecidableEq, Repr

/-- Embedding of ModelSwitcher.Chat: run maybeResetDaily, attempt the current
model, and on a rate-limit error switch to the next fallback and retry once.
The provider behaviour is the oracle respond, keyed by the model attempted. -/
def switcherChat (createOk : String → Bool) (respond : String → ChatOutcome)
    (today : Int) (s : SwitcherState) : ChatTrace :=
  let s1 := maybeResetDaily createOk today s
  match respond s1.currentModel with
  | .ok r => ⟨s1, [s1.currentModel], some r⟩
  | .otherError => ⟨s1, [s1.currentModel], none⟩
  | .rateLimited =>
      match switchToNext createOk today s1 with
      | none => ⟨s1, [s1.currentModel], none⟩
      | some s2 =>
          match respond s2.currentModel with
          | .ok r => ⟨s2, [s1.currentModel, s2.currentModel], some r⟩
          | _ => ⟨s2, [s1.currentModel, s2.currentModel], none⟩

/-- C7: every Chat call runs maybeResetDaily first: when a rate-limit switch
was recorded on some day and today is a different day, and a provider for
the primary model can be created, the switcher state is reset to the primary
model before the request is attempted, so the first model attempted by the
call is the primary. -/
theorem C7_daily_reset_to_primary (createOk : String → Bool)
    (respond : String → ChatOutcome) (today : Int) (s : SwitcherState)
    (hday : 0 ≤ s.rateLimitDay) (hdiff : today ≠ s.rateLimitDay)
    (hcreate : createOk s.primaryModel = true) :
    (maybeResetDaily createOk today s).currentModel = s.primaryModel ∧
      (switcherChat createOk respond today s).attempts.head? =
        some s.primaryModel := by
  have hreset : (maybeResetDaily createOk today s).currentModel = s.primaryModel ∧
      (maybeResetDaily createOk today s).primaryModel = s.primaryModel := by
    rw [maybeResetDaily, if_neg (by omega), if_neg hdiff]
    by_cases hcur : s.currentModel = s.primaryModel
    · rw [if_pos hcur]
      exact ⟨hcur, rfl⟩
    · rw [if_neg hcur, if_pos hcreate]
      exact ⟨rfl, rfl⟩
  refine ⟨hreset.1, ?_⟩
  rw [switcherChat]
  cases hresp : respond (maybeResetDaily createOk today s).currentModel with
  | ok r => simp [hresp, hreset.1]
  | otherError => simp [hresp, hreset.1]
  | rateLimited =>
      cases hsw : switchToNext createOk today (maybeResetDaily createOk today s) with
      | none => simp [hresp, hsw, hreset.1]
      | some s2 =>
          cases hresp2 : respond s2.currentModel with
          | ok r => simp [hresp, hsw, hresp2, hreset.1]
          | rateLimited => simp [hresp, hsw, hresp2, hreset.1]
          | otherError => simp [hresp, hsw, hresp2, hreset.1]

/-- Witness for C7: a switcher that moved to fallback model "fb" on day 10,
queried on day 11 with a provider oracle that accepts every model and a
responder that always succeeds. -/
theorem C7_daily_reset_to_primary_witness :
    (maybeResetDaily (fun _ => true) 11
        ⟨"primary", ["fb"], "fb", "fb", 10⟩).currentModel = "primary" ∧
      (switcherChat (fun _ => true) (fun _ => .ok "hi") 11
          ⟨"primary", ["fb"], "fb", "fb", 10⟩).attempts.head? = some "primary" :=
  C7_daily_reset_to_primary (fun _ => true) (fun _ => .ok "hi") 11
    ⟨"primary", ["fb"], "fb", "fb", 10⟩ (by decide) (by decide) rfl

/-! ## Memory store (store file: Search, Update, Prune)

A table row of the memories table. Float32 embedding components and the
float64 similarity arithmetic are modelled as exact reals; the REAL score
column as an exact rational (Prune only compares scores). Timestamps are
naturals. A NULL embedding is none; encodeEmbedding stores nil (hence NULL)
for an empty vector. -/

/-- Mirror of a row of the memories table / the Go struct MemoryItem. -/
structure MemRow where
  id : String
  userId : String
  content : String
  category : String
  embedding : Option (List ℝ)
  score : ℚ
  createdAt : ℕ
  updatedAt : ℕ
  accessCnt : ℕ
  deleted : Bool

/-- Row predicate of the WHERE clause user_id = ? AND deleted = 0 shared by
Search, GetByUser, GetStats and Prune. -/
def rowActive (uid : String) (r : MemRow) : Bool :=
  r.userId == uid && !r.deleted

/-- Active (non-soft-deleted) rows of one user, in table order. -/
def activeRows (store : List MemRow) (uid : String) : List MemRow :=
  store.filter (rowActive uid)

/-- Row predicate of Update's WHERE clause id = ? AND deleted = 0. -/
def updHits (id : String) (r : MemRow) : Bool :=
  r.id == id && !r.deleted

/-- Embedding of MemoryStore.Update: the store after the SQL UPDATE (matching
rows get the new content, embedding blob and updated_at), paired with the
success flag; the flag is false exactly when RowsAffected is zero, in which
case Go returns the memory-not-found error. -/
def memUpdate (store : List MemRow) (id content : String) (emb : List ℝ)
    (now : ℕ) : List MemRow × Bool :=
  (store.map fun r =>
      if updHits id r then
        { r with content := content,
                 embedding := if emb.isEmpty then none else some emb,
                 updatedAt := now }
      else r,
    (store.filter (updHits id)).length != 0)

/-- C9: Update fails exactly when no non-soft-deleted row carries the given
id (in particular a soft-deleted row cannot be updated), and a failing
Update leaves the store unchanged. -/
theorem C9_update_not_found (store : List MemRow) (id content : String)
    (emb : List ℝ) (now : ℕ) :
    ((memUpdate store id content emb now).2 = false ↔
        ∀ r ∈ store, r.id = id → r.deleted = true) ∧
      ((memUpdate store id content emb now).2 = false →
        (memUpdate store id content emb now).1 = store) := by
  have hiff : (memUpdate store id content emb now).2 = false ↔
      ∀ r ∈ store, r.id = id → r.deleted = true := by
    have h1 : (memUpdate store id content emb now).2 = false ↔
        store.filter (updHits id) = [] := by
      simp [memUpdate, List.length_eq_zero]
    rw [h1, List.filter_eq_nil_iff]
    constructor
    · intro h r hr hid
      have := h r hr
      simp only [updHits, hid, beq_self_eq_true, Bool.true_and,
        Bool.not_eq_true', Bool.not_eq_false] at this
      exact this
    · intro h r hr
      by_cases hid : r.id = id
      · have := h r hr hid
        simp [updHits, this]
      · simp [updHits, hid]
  refine ⟨hiff, fun h2 => ?_⟩
  have hall := hiff.mp h2
  show (store.map fun r =>
      if updHits id r then
        { r with content := content,
                 embedding := if emb.isEmpty then none else some emb,
                 updatedAt := now }
      else r) = store
  calc (store.map fun r =>
        if updHits id r then
          { r with content := content,
                   embedding := if emb.isEmpty then none else some emb,
                   updatedAt := now }
        else r)
      = store.map (fun r => r) := by
        apply List.map_congr_left
        intro r hr
        have hno : ¬updHits id r = true := by
          by_cases hid : r.id = id
          · simp [updHits, hid, hall r hr hid]
          · simp [updHits, hid]
        rw [if_neg hno]
    _ = store := List.map_id' store

/-- Witness for C9 at a one-row store whose row is soft-deleted: the update
fails and the store is untouched. -/
theorem C9_update_not_found_witness :
    ((memUpdate [⟨"a", "u", "c", "fact", none, 1, 0, 0, 0, true⟩]
          "a" "c2" [] 5).2 = false ↔
        ∀ r ∈ [(⟨"a", "u", "c", "fact", none, 1, 0, 0, 0, true⟩ : MemRow)],
          r.id = "a" → r.deleted = true) ∧
      ((memUpdate [⟨"a", "u", "c", "fact", none, 1, 0, 0, 0, true⟩]
          "a" "c2" [] 5).2 = false →
        (memUpdate [⟨"a", "u", "c", "fact", none, 1, 0, 0, 0, true⟩]
            "a" "c2" [] 5).1 =
          [⟨"a", "u", "c", "fact", none, 1, 0, 0, 0, true⟩]) :=
  C9_update_not_found [⟨"a", "u", "c", "fact", none, 1, 0, 0, 0, true⟩] "a" "c2" [] 5

/-! ## Cosine similarity and Search (pkg/memory/extractor.go CosineSimilarity;
store file Search) -/

/-- Embedding of CosineSimilarity over exact reals: guard on differing or
zero lengths, accumulate dot product and squared norms, guard on zero norms,
else divide by the product of the square roots. -/
noncomputable def cosineSimilarity (a b : List ℝ) : ℝ :=
  if a.length ≠ b.length ∨ a.length = 0 then 0
  else
    if (a.map fun x => x * x).sum = 0 ∨ (b.map fun x => x * x).sum = 0 then 0
    else
      (List.zipWith (fun x y => x * y) a b).sum /
        (Real.sqrt (a.map fun x => x * x).sum * Real.sqrt (b.map fun x => x * x).sum)

/-- C10: CosineSimilarity never divides by zero: vectors of different
lengths, empty vectors, and vectors with zero squared norm all yield 0;
hence a stored embedding of the wrong dimensionality is scored 0 by Search
rather than causing a failure. -/
theorem C10_cosine_total_zero_cases (a b : List ℝ)
    (h : a.length ≠ b.length ∨ a = [] ∨
      (a.map fun x => x * x).sum = 0 ∨ (b.map fun x => x * x).sum = 0) :
    cosineSimilarity a b = 0 := by
  rcases h with h | h | h | h
  · rw [cosineSimilarity, if_pos (Or.inl h)]
  · rw [cosineSimilarity, if_pos (Or.inr (by simp [h]))]
  · rw [cosineSimilarity]
    by_cases hlen : a.length ≠ b.length ∨ a.length = 0
    · rw [if_pos hlen]
    · rw [if_neg hlen, if_pos (Or.inl h)]
  · rw [cosineSimilarity]
    by_cases hlen : a.length ≠ b.length ∨ a.length = 0
    · rw [if_pos hlen]
    · rw [if_neg hlen, if_pos (Or.inr h)]

/-- Witness for C10 at a concrete pair of different lengths: the query [1]
against a stored two-dimensional embedding [1, 0]. -/
theorem C10_cosine_total_zero_cases_witness :
    cosineSimilarity [1] [1, 0] = 0 :=
  C10_cosine_total_zero_cases [1] [1, 0] (Or.inl (by simp))

/-- Mirror of the Go struct SearchResult. -/
structure SearchResult where
  item : MemRow
  similarity : ℝ

/-- Row predicate of Search's WHERE clause user_id = ? AND deleted = 0 AND
embedding IS NOT NULL. -/
def searchFilter (uid : String) (r : MemRow) : Bool :=
  r.userId == uid && !r.deleted && r.embedding.isSome

/-- Scan loop of Search: decode each row's embedding, compute the cosine
similarity against the query, and keep the rows at or above minScore, in
table order. -/
noncomputable def collectHits (q : List ℝ) (minScore : ℝ) :
    List MemRow → List SearchResult
  | [] => []
  | r :: rs =>
      if minScore ≤ cosineSimilarity q (r.embedding.getD []) then
        ⟨r, cosineSimilarity q (r.embedding.getD [])⟩ :: collectHits q minScore rs
      else collectHits q minScore rs

/-- Candidate result list of Search before sorting. -/
noncomputable def searchCandidates (store : List MemRow) (q : List ℝ)
    (uid : String) (minScore : ℝ) : List SearchResult :=
  collectHits q minScore (store.filter (searchFilter uid))

/-- Insert one result into a similarity-descending list, before the first
strictly less similar entry; among equal similarities the earlier candidate
stays first, matching what Go's sort does on the two-element tied inputs
considered here (its comparator looks only at Similarity). -/
noncomputable def insertBySim (x : SearchResult) :
    List SearchResult → List SearchResult
  | [] => [x]
  | y :: ys =>
      if y.similarity ≤ x.similarity then x :: y :: ys else y :: insertBySim x ys

/-- Sort by similarity descending, the sole sort key used by Search. -/
noncomputable def sortBySimDesc : List SearchResult → List SearchResult
  | [] => []
  | x :: xs => insertBySim x (sortBySimDesc xs)

/-- Embedding of MemoryStore.Search: filter, score, threshold, sort by
similarity descending, truncate to topK. -/
noncomputable def searchMems (store : List MemRow) (q : List ℝ) (uid : String)
    (topK : ℕ) (minScore : ℝ) : List SearchResult :=
  (sortBySimDesc (searchCandidates store q uid minScore)).take topK

lemma mem_collectHits (q : List ℝ) (m : ℝ) (l : List MemRow) (x : SearchResult)
    (hx : x ∈ collectHits q m l) :
    ∃ r ∈ l, x = ⟨r, cosineSimilarity q (r.embedding.getD [])⟩ ∧
      m ≤ cosineSimilarity q (r.embedding.getD []) := by
  induction l with
  | nil => simp [collectHits] at hx
  | cons r rs ih =>
      rw [collectHits] at hx
      split at hx
      · rcases List.mem_cons.mp hx with h | h
        · exact ⟨r, by simp, h, by assumption⟩
        · rcases ih h with ⟨r', hr', hh⟩
          exact ⟨r', by simp [hr'], hh⟩
      · rcases ih hx with ⟨r', hr', hh⟩
        exact ⟨r', by simp [hr'], hh⟩

lemma insertBySim_perm (x : SearchResult) (l : List SearchResult) :
    (insertBySim x l).Perm (x :: l) := by
  induction l with
  | nil => rw [insertBySim]
  | cons y ys ih =>
      rw [insertBySim]
      split
      · rfl
      · exact (ih.cons y).trans (List.Perm.swap x y ys)

lemma sortBySimDesc_perm (l : List SearchResult) : (sortBySimDesc l).Perm l := by
  induction l with
  | nil => rw [sortBySimDesc]
  | cons x xs ih =>
      rw [sortBySimDesc]
      exact (insertBySim_perm x (sortBySimDesc xs)).trans (ih.cons x)

lemma insertBySim_pairwise (x : SearchResult) (l : List SearchResult)
    (hl : l.Pairwise fun a b => b.similarity ≤ a.similarity) :
    (insertBySim x l).Pairwise fun a b => b.similarity ≤ a.similarity := by
  induction l with
  | nil => simp [insertBySim]
  | cons y ys ih =>
      rw [insertBySim]
      rcases List.pairwise_cons.mp hl with ⟨hy, hys⟩
      split
      · refine List.pairwise_cons.mpr ⟨?_, hl⟩
        intro z hz
        rcases List.mem_cons.mp hz with rfl | hz
        · assumption
        · exact le_trans (hy z hz) (by assumption)
      · refine List.pairwise_cons.mpr ⟨?_, ih hys⟩
        intro z hz
        rcases List.mem_cons.mp ((insertBySim_perm x ys).mem_iff.mp hz) with rfl | hz
        · exact le_of_not_le (by assumption)
        · exact hy z hz

lemma sortBySimDesc_pairwise (l : List SearchResult) :
    (sortBySimDesc l).Pairwise fun a b => b.similarity ≤ a.similarity := by
  induction l with
  | nil => simp [sortBySimDesc]
  | cons x xs ih => exact insertBySim_pairwise x _ ih

/-- C1 amended: every Search result is a non-soft-deleted memory owned by
the queried user (partition isolation) with a stored embedding, carrying
exactly the cosine similarity of the query against that embedding, at least
minScore; at most topK results are returned and they are sorted by
similarity descending. The original claim's tie-break on updated_at is
dropped: equal-similarity results stay in table order. -/
theorem C1_search_properties (store : List MemRow) (q : List ℝ) (uid : String)
    (topK : ℕ) (minScore : ℝ) :
    (searchMems store q uid topK minScore).length ≤ topK ∧
      (∀ res ∈ searchMems store q uid topK minScore,
        res.item ∈ store ∧ res.item.userId = uid ∧ res.item.deleted = false ∧
          res.item.embedding.isSome = true ∧
          res.similarity = cosineSimilarity q (res.item.embedding.getD []) ∧
          minScore ≤ res.similarity) ∧
      (searchMems store q uid topK minScore).Pairwise
        (fun a b => b.similarity ≤ a.similarity) := by
  refine ⟨List.length_take_le topK _, ?_, ?_⟩
  · intro res hres
    have h1 : res ∈ sortBySimDesc (searchCandidates store q uid minScore) :=
      List.mem_of_mem_take hres
    have h2 : res ∈ searchCandidates store q uid minScore :=
      (sortBySimDesc_perm _).subset h1
    rcases mem_collectHits q minScore _ res h2 with ⟨r, hr, rfl, hsim⟩
    rcases List.mem_filter.mp hr with ⟨hrs, hcond⟩
    have hcond' := hcond
    simp only [searchFilter, Bool.and_eq_true, beq_iff_eq, Bool.not_eq_true',
      Bool.not_eq_false] at hcond'
    exact ⟨hrs, hcond'.1.1, hcond'.1.2, hcond'.2, rfl, hsim⟩
  · exact ((sortBySimDesc_pairwise _).sublist (List.take_sublist topK _))

/-- Witness for C1's amended theorem at a one-row store and its own
embedding as the query. -/
theorem C1_search_properties_witness :
    (searchMems [⟨"a", "u", "c", "fact", some [1], 1, 0, 1, 0, false⟩] [1] "u" 5
          0).length ≤ 5 ∧
      (∀ res ∈ searchMems [⟨"a", "u", "c", "fact", some [1], 1, 0, 1, 0, false⟩]
          [1] "u" 5 0,
        res.item ∈ [(⟨"a", "u", "c", "fact", some [1], 1, 0, 1, 0, false⟩ : MemRow)] ∧
          res.item.userId = "u" ∧ res.item.deleted = false ∧
          res.item.embedding.isSome = true ∧
          res.similarity = cosineSimilarity [1] (res.item.embedding.getD []) ∧
          (0 : ℝ) ≤ res.similarity) ∧
      (searchMems [⟨"a", "u", "c", "fact", some [1], 1, 0, 1, 0, false⟩] [1] "u" 5
          0).Pairwise (fun a b => b.similarity ≤ a.similarity) :=
  C1_search_properties [⟨"a", "u", "c", "fact", some [1], 1, 0, 1, 0, false⟩]
    [1] "u" 5 0

/-- Formalization of the claimed ordering of C1: similarity descending with
ties broken by most-recent updated_at. -/
def tieBreakOrdered (l : List SearchResult) : Prop :=
  l.Pairwise fun a b =>
    b.similarity < a.similarity ∨
      (a.similarity = b.similarity ∧ b.item.updatedAt ≤ a.item.updatedAt)

/-- First row of the C1 counterexample store: updated_at 1, embedding [1]. -/
def rowOlder : MemRow :=
  ⟨"a", "u", "c", "fact", some [1], 1, 0, 1, 0, false⟩

/-- Second row of the C1 counterexample store: same embedding, updated_at 2. -/
def rowNewer : MemRow :=
  ⟨"b", "u", "c", "fact", some [1], 1, 0, 2, 0, false⟩

lemma cosine_one_one : cosineSimilarity [1] [1] = 1 := by
  rw [cosineSimilarity, if_neg (by simp), if_neg (by norm_num)]
  simp [Real.sqrt_one]

lemma searchCounterexample_eval :
    searchMems [rowOlder, rowNewer] [1] "u" 5 (3 / 10) =
      [⟨rowOlder, cosineSimilarity [1] [1]⟩, ⟨rowNewer, cosineSimilarity [1] [1]⟩] := by
  have hle : (3 / 10 : ℝ) ≤ cosineSimilarity [1] [1] := by
    rw [cosine_one_one]; norm_num
  have hfilter : ([rowOlder, rowNewer].filter (searchFilter "u")) =
      [rowOlder, rowNewer] := by
    simp [searchFilter, rowOlder, rowNewer]
  rw [searchMems, searchCandidates, hfilter]
  rw [show collectHits [1] (3 / 10) [rowOlder, rowNewer] =
      [⟨rowOlder, cosineSimilarity [1] [1]⟩, ⟨rowNewer, cosineSimilarity [1] [1]⟩] by
    rw [collectHits, if_pos (by simpa [rowOlder] using hle)]
    rw [collectHits, if_pos (by simpa [rowNewer] using hle)]
    rw [collectHits]
    simp [rowOlder, rowNewer]]
  rw [sortBySimDesc, sortBySimDesc, sortBySimDesc, insertBySim, insertBySim,
    if_pos le_rfl]
  rfl

/-- C1 as stated is false on the code: Search's sort compares only the
similarity, so two results with equal similarity are not ordered by
most-recent updated_at. In the concrete two-row store below both rows have
embedding [1] (similarity 1 to the query [1]); the row updated at time 1
precedes the row updated at time 2 in the output. -/
theorem C1_search_tiebreak_counterexample :
    ¬tieBreakOrdered (searchMems [rowOlder, rowNewer] [1] "u" 5 (3 / 10)) := by
  rw [searchCounterexample_eval, tieBreakOrdered]
  intro h
  rcases List.pairwise_cons.mp h with ⟨hrel, _⟩
  rcases hrel ⟨rowNewer, cosineSimilarity [1] [1]⟩ (by simp) with hlt | ⟨_, hle⟩
  · exact absurd hlt (by simp)
  · rw [show (⟨rowNewer, cosineSimilarity [1] [1]⟩ : SearchResult).item.updatedAt = 2
      from rfl] at hle
    rw [show (⟨rowOlder, cosineSimilarity [1] [1]⟩ : SearchResult).item.updatedAt = 1
      from rfl] at hle
    omega

/-! ## Prune (store file, Prune)

The SQL value expression score * (1 + 0.1 * access_cnt) is modelled over
exact rationals; the subquery ORDER BY value ASC LIMIT toDelete is a stable
ascending sort followed by take (ties are picked in table order, one valid
instantiation of the unspecified SQL tie order). -/

/-- Retention value of a row, the SQL expression
score * (1 + 0.1 * access_cnt). -/
def pruneValue (r : MemRow) : ℚ :=
  r.score * (1 + mkRat 1 10 * r.accessCnt)

/-- Insert a row into a value-ascending list before the first strictly more
valuable entry. -/
def insertByValue (x : MemRow) : List MemRow → List MemRow
  | [] => [x]
  | y :: ys =>
      if pruneValue x ≤ pruneValue y then x :: y :: ys else y :: insertByValue x ys

/-- Stable sort by retention value ascending, the subquery's ORDER BY. -/
def sortByValueAsc : List MemRow → List MemRow
  | [] => []
  | x :: xs => insertByValue x (sortByValueAsc xs)

/-- Effect of the outer UPDATE on one row: rows whose id is in the victim id
set are soft-deleted with updated_at set to now. -/
def markDeleted (victimIds : List String) (now : ℕ) (r : MemRow) : MemRow :=
  if victimIds.contains r.id then { r with deleted := true, updatedAt := now }
  else r

/-- Ids selected by Prune's subquery: the count - maxItems least valuable
active rows of the user. -/
def pruneVictimIds (store : List MemRow) (uid : String) (maxItems : ℕ) :
    List String :=
  ((sortByValueAsc (activeRows store uid)).take
      ((activeRows store uid).length - maxItems)).map MemRow.id

/-- Embedding of MemoryStore.Prune: count the user's active rows, return
unchanged with 0 when within the bound, otherwise soft-delete the selected
victims and report RowsAffected. -/
def pruneMems (store : List MemRow) (uid : String) (maxItems now : ℕ) :
    List MemRow × ℕ :=
  if (activeRows store uid).length ≤ maxItems then (store, 0)
  else
    (store.map (markDeleted (pruneVictimIds store uid maxItems) now),
      (store.filter fun r =>
        (pruneVictimIds store uid maxItems).contains r.id).length)

lemma insertByValue_perm (x : MemRow) (l : List MemRow) :
    (insertByValue x l).Perm (x :: l) := by
  induction l with
  | nil => rw [insertByValue]
  | cons y ys ih =>
      rw [insertByValue]
      split
      · rfl
      · exact (ih.cons y).trans (List.Perm.swap x y ys)

lemma sortByValueAsc_perm (l : List MemRow) : (sortByValueAsc l).Perm l := by
  induction l with
  | nil => rw [sortByValueAsc]
  | cons x xs ih =>
      rw [sortByValueAsc]
      exact (insertByValue_perm x (sortByValueAsc xs)).trans (ih.cons x)

lemma insertByValue_pairwise (x : MemRow) (l : List MemRow)
    (hl : l.Pairwise fun a b => pruneValue a ≤ pruneValue b) :
    (insertByValue x l).Pairwise fun a b => pruneValue a ≤ pruneValue b := by
  induction l with
  | nil => simp [insertByValue]
  | cons y ys ih =>
      rw [insertByValue]
      rcases List.pairwise_cons.mp hl with ⟨hy, hys⟩
      split
      · refine List.pairwise_cons.mpr ⟨?_, hl⟩
        intro z hz
        rcases List.mem_cons.mp hz with rfl | hz
        · assumption
        · exact le_trans (by assumption) (hy z hz)
      · refine List.pairwise_cons.mpr ⟨?_, ih hys⟩
        intro z hz
        rcases List.mem_cons.mp ((insertByValue_perm x ys).mem_iff.mp hz) with rfl | hz
        · exact le_of_not_le (by assumption)
        · exact hy z hz

lemma sortByValueAsc_pairwise (l : List MemRow) :
    (sortByValueAsc l).Pairwise fun a b => pruneValue a ≤ pruneValue b := by
  induction l with
  | nil => simp [sortByValueAsc]
  | cons x xs ih => exact insertByValue_pairwise x _ ih

lemma filter_map_markDeleted (vIds : List String) (uid : String) (now : ℕ)
    (l : List MemRow) :
    (l.map (markDeleted vIds now)).filter (rowActive uid) =
      (l.filter (rowActive uid)).filter fun r => !vIds.contains r.id := by
  induction l with
  | nil => rfl
  | cons r rs ih =>
      simp only [List.map_cons, List.filter_cons]
      by_cases hc : vIds.contains r.id = true
      · rw [markDeleted, if_pos hc]
        have hmod : rowActive uid { r with deleted := true, updatedAt := now } = false := by
          simp [rowActive]
        rw [hmod]
        by_cases hact : rowActive uid r = true
        · simp only [hact, if_true, List.filter_cons, hc, Bool.not_true,
            Bool.false_eq_true, if_false]
          exact ih
        · simp only [hact, Bool.false_eq_true, if_false]
          exact ih
      · rw [markDeleted, if_neg hc]
        by_cases hact : rowActive uid r = true
        · simp only [hact, if_true, List.filter_cons,
            Bool.not_eq_true', eq_false_of_ne_true hc, Bool.not_false, if_true]
          rw [ih]
        · simp only [hact, Bool.false_eq_true, if_false]
          exact ih

/-- Core facts about one over-limit Prune pass, under the primary-key
invariant that row ids are unique: the user's active count drops to
maxItems, RowsAffected is count - maxItems, and every pruned row's retention
value is at most every survivor's. -/
lemma prune_core (store : List MemRow) (uid : String) (maxItems now : ℕ)
    (hnodup : (store.map MemRow.id).Nodup)
    (hgt : maxItems < (activeRows store uid).length) :
    (activeRows (store.map (markDeleted (pruneVictimIds store uid maxItems) now))
        uid).length = maxItems ∧
      (store.filter fun r =>
          (pruneVictimIds store uid maxItems).contains r.id).length =
        (activeRows store uid).length - maxItems ∧
      ∀ r ∈ activeRows store uid,
        r ∉ activeRows (store.map (markDeleted (pruneVictimIds store uid maxItems)
            now)) uid →
        ∀ s ∈ activeRows (store.map (markDeleted (pruneVictimIds store uid maxItems)
            now)) uid,
          pruneValue r ≤ pruneValue s := by
  have hperm : List.Perm (sortByValueAsc (activeRows store uid)) (activeRows store uid) :=
    sortByValueAsc_perm _
  have hsortpw := sortByValueAsc_pairwise (activeRows store uid)
  have happend :
      (sortByValueAsc (activeRows store uid)).take
          ((activeRows store uid).length - maxItems) ++
        (sortByValueAsc (activeRows store uid)).drop
          ((activeRows store uid).length - maxItems) =
      sortByValueAsc (activeRows store uid) :=
    List.take_append_drop _ _
  have hactsub : List.Sublist ((activeRows store uid).map MemRow.id)
      (store.map MemRow.id) := (List.filter_sublist store).map MemRow.id
  have hactnodup : ((activeRows store uid).map MemRow.id).Nodup :=
    hnodup.sublist hactsub
  have hsortnodup : ((sortByValueAsc (activeRows store uid)).map MemRow.id).Nodup :=
    ((hperm.map MemRow.id).nodup_iff).mpr hactnodup
  have hsplit :
      ((sortByValueAsc (activeRows store uid)).take
          ((activeRows store uid).length - maxItems)).map MemRow.id ++
        ((sortByValueAsc (activeRows store uid)).drop
          ((activeRows store uid).length - maxItems)).map MemRow.id =
      (sortByValueAsc (activeRows store uid)).map MemRow.id := by
    rw [← List.map_append, happend]
  rw [← hsplit] at hsortnodup
  rcases List.nodup_append.mp hsortnodup with ⟨hvnodup, hknodup, hdisj⟩
  have hvIdseq : pruneVictimIds store uid maxItems =
      ((sortByValueAsc (activeRows store uid)).take
        ((activeRows store uid).length - maxItems)).map MemRow.id := rfl
  have hactive' :
      activeRows (store.map (markDeleted (pruneVictimIds store uid maxItems) now))
          uid =
        (activeRows store uid).filter
          (fun r => !(pruneVictimIds store uid maxItems).contains r.id) := by
    rw [activeRows, filter_map_markDeleted]
    rfl
  have hfiltperm : List.Perm
      ((activeRows store uid).filter
        (fun r => !(pruneVictimIds store uid maxItems).contains r.id))
      ((sortByValueAsc (activeRows store uid)).filter
        (fun r => !(pruneVictimIds store uid maxItems).contains r.id)) :=
    (hperm.symm).filter _
  have hvfilter :
      ((sortByValueAsc (activeRows store uid)).take
          ((activeRows store uid).length - maxItems)).filter
        (fun r => !(pruneVictimIds store uid maxItems).contains r.id) = [] := by
    rw [List.filter_eq_nil_iff]
    intro v hv
    have hmem : v.id ∈ pruneVictimIds store uid maxItems := by
      rw [hvIdseq]
      exact List.mem_map_of_mem MemRow.id hv
    simp [hmem]
  have hkfilter :
      ((sortByValueAsc (activeRows store uid)).drop
          ((activeRows store uid).length - maxItems)).filter
        (fun r => !(pruneVictimIds store uid maxItems).contains r.id) =
      (sortByValueAsc (activeRows store uid)).drop
        ((activeRows store uid).length - maxItems) := by
    rw [List.filter_eq_self]
    intro k hk
    have hkid : k.id ∈ ((sortByValueAsc (activeRows store uid)).drop
        ((activeRows store uid).length - maxItems)).map MemRow.id :=
      List.mem_map_of_mem MemRow.id hk
    have hnot : k.id ∉ pruneVictimIds store uid maxItems := by
      rw [hvIdseq]
      exact fun hmem => hdisj hmem hkid
    simp [hnot]
  have hsfilter :
      (sortByValueAsc (activeRows store uid)).filter
        (fun r => !(pruneVictimIds store uid maxItems).contains r.id) =
      (sortByValueAsc (activeRows store uid)).drop
        ((activeRows store uid).length - maxItems) := by
    rw [← happend, List.filter_append, hvfilter, hkfilter, List.nil_append]
    rw [happend]
  have hsortlen : (sortByValueAsc (activeRows store uid)).length =
      (activeRows store uid).length := hperm.length_eq
  have hkeeplen : ((sortByValueAsc (activeRows store uid)).drop
      ((activeRows store uid).length - maxItems)).length = maxItems := by
    rw [List.length_drop, hsortlen]
    omega
  refine ⟨?_, ?_, ?_⟩
  · rw [hactive', hfiltperm.length_eq, hsfilter, hkeeplen]
  · have hvlen : (pruneVictimIds store uid maxItems).length =
        (activeRows store uid).length - maxItems := by
      rw [hvIdseq, List.length_map, List.length_take, hsortlen]
      omega
    have hvsub : ∀ i ∈ pruneVictimIds store uid maxItems, i ∈ store.map MemRow.id := by
      intro i hi
      rw [hvIdseq] at hi
      rcases List.mem_map.mp hi with ⟨v, hv, rfl⟩
      have hv1 : v ∈ sortByValueAsc (activeRows store uid) := List.mem_of_mem_take hv
      have hv2 : v ∈ activeRows store uid := hperm.subset hv1
      have hv3 : v ∈ store := by
        rw [activeRows] at hv2
        exact (List.mem_filter.mp hv2).1
      exact List.mem_map_of_mem MemRow.id hv3
    have hcountperm : List.Perm
        ((store.map MemRow.id).filter
          (fun i => (pruneVictimIds store uid maxItems).contains i))
        (pruneVictimIds store uid maxItems) := by
      refine (List.perm_ext_iff_of_nodup (hnodup.filter _) ?_).mpr ?_
      · rw [hvIdseq]; exact hvnodup
      · intro a
        constructor
        · intro ha
          have := (List.mem_filter.mp ha).2
          simpa using this
        · intro ha
          exact List.mem_filter.mpr ⟨hvsub a ha, by simpa using ha⟩
    have hmapf : ((store.map MemRow.id).filter
          (fun i => (pruneVictimIds store uid maxItems).contains i)) =
        (store.filter fun r =>
          (pruneVictimIds store uid maxItems).contains r.id).map MemRow.id := by
      rw [List.filter_map]
      rfl
    calc (store.filter fun r =>
            (pruneVictimIds store uid maxItems).contains r.id).length
        = ((store.filter fun r =>
            (pruneVictimIds store uid maxItems).contains r.id).map
              MemRow.id).length := (List.length_map _ _).symm
      _ = ((store.map MemRow.id).filter
            (fun i => (pruneVictimIds store uid maxItems).contains i)).length := by
          rw [hmapf]
      _ = (pruneVictimIds store uid maxItems).length := hcountperm.length_eq
      _ = (activeRows store uid).length - maxItems := hvlen
  · intro r hr hrnot s hs
    rw [hactive'] at hrnot hs
    have hr' : r ∈ sortByValueAsc (activeRows store uid) := hperm.symm.subset hr
    have hr2 : r ∈ (sortByValueAsc (activeRows store uid)).take
          ((activeRows store uid).length - maxItems) ++
        (sortByValueAsc (activeRows store uid)).drop
          ((activeRows store uid).length - maxItems) := by
      rw [happend]; exact hr'
    have hsk : s ∈ (sortByValueAsc (activeRows store uid)).drop
        ((activeRows store uid).length - maxItems) := by
      have h1 := hfiltperm.subset hs
      rw [hsfilter] at h1
      exact h1
    have hrv : r ∈ (sortByValueAsc (activeRows store uid)).take
        ((activeRows store uid).length - maxItems) := by
      rcases List.mem_append.mp hr2 with hv | hk
      · exact hv
      · exfalso
        apply hrnot
        have h1 : r ∈ (sortByValueAsc (activeRows store uid)).filter
            (fun x => !(pruneVictimIds store uid maxItems).contains x.id) := by
          rw [hsfilter]; exact hk
        exact hfiltperm.symm.subset h1
    have hpw : ((sortByValueAsc (activeRows store uid)).take
          ((activeRows store uid).length - maxItems) ++
        (sortByValueAsc (activeRows store uid)).drop
          ((activeRows store uid).length - maxItems)).Pairwise
        (fun a b => pruneValue a ≤ pruneValue b) := by
      rw [happend]; exact hsortpw
    exact (List.pairwise_append.mp hpw).2.2 r hrv s hsk

/-- C3: under the primary-key invariant (unique row ids), after
Prune(user, N) the user's non-soft-deleted count is at most N; when the
count was within the bound nothing is deleted and 0 is returned; when over
the bound exactly count - N rows are deleted, and the deleted rows minimize
the retention value score * (1 + 0.1 * access_cnt): every pruned row's value
is at most every surviving active row's value. -/
theorem C3_prune_bound (store : List MemRow) (uid : String) (maxItems now : ℕ)
    (hnodup : (store.map MemRow.id).Nodup) :
    (activeRows (pruneMems store uid maxItems now).1 uid).length ≤ maxItems ∧
      ((activeRows store uid).length ≤ maxItems →
        pruneMems store uid maxItems now = (store, 0)) ∧
      (maxItems < (activeRows store uid).length →
        (pruneMems store uid maxItems now).2 =
            (activeRows store uid).length - maxItems ∧
          ∀ r ∈ activeRows store uid,
            r ∉ activeRows (pruneMems store uid maxItems now).1 uid →
            ∀ s ∈ activeRows (pruneMems store uid maxItems now).1 uid,
              pruneValue r ≤ pruneValue s) := by
  by_cases hle : (activeRows store uid).length ≤ maxItems
  · rw [pruneMems, if_pos hle]
    exact ⟨hle, fun _ => rfl, fun hgt => absurd hle (by omega)⟩
  · have hgt' : maxItems < (activeRows store uid).length := by omega
    rcases prune_core store uid maxItems now hnodup hgt' with ⟨h1, h2, h3⟩
    rw [pruneMems, if_neg hle]
    exact ⟨le_of_eq h1, fun h => absurd h hle,
      fun _ => ⟨h2, fun r hr hrnot s hs => h3 r hr hrnot s hs⟩⟩

/-- Witness for C3 at a two-row store pruned to one item. -/
theorem C3_prune_bound_witness :
    (activeRows (pruneMems
          [⟨"a", "u", "c", "fact", none, 1, 0, 0, 0, false⟩,
           ⟨"b", "u", "c", "fact", none, 2, 0, 0, 0, false⟩] "u" 1 9).1 "u").length ≤ 1 ∧
      ((activeRows [⟨"a", "u", "c", "fact", none, 1, 0, 0, 0, false⟩,
           ⟨"b", "u", "c", "fact", none, 2, 0, 0, 0, false⟩] "u").length ≤ 1 →
        pruneMems [⟨"a", "u", "c", "fact", none, 1, 0, 0, 0, false⟩,
           ⟨"b", "u", "c", "fact", none, 2, 0, 0, 0, false⟩] "u" 1 9 =
          ([⟨"a", "u", "c", "fact", none, 1, 0, 0, 0, false⟩,
            ⟨"b", "u", "c", "fact", none, 2, 0, 0, 0, false⟩], 0)) ∧
      (1 < (activeRows [⟨"a", "u", "c", "fact", none, 1, 0, 0, 0, false⟩,
           ⟨"b", "u", "c", "fact", none, 2, 0, 0, 0, false⟩] "u").length →
        (pruneMems [⟨"a", "u", "c", "fact", none, 1, 0, 0, 0, false⟩,
             ⟨"b", "u", "c", "fact", none, 2, 0, 0, 0, false⟩] "u" 1 9).2 =
            (activeRows [⟨"a", "u", "c", "fact", none, 1, 0, 0, 0, false⟩,
              ⟨"b", "u", "c", "fact", none, 2, 0, 0, 0, false⟩] "u").length - 1 ∧
          ∀ r ∈ activeRows [⟨"a", "u", "c", "fact", none, 1, 0, 0, 0, false⟩,
              ⟨"b", "u", "c", "fact", none, 2, 0, 0, 0, false⟩] "u",
            r ∉ activeRows (pruneMems
                [⟨"a", "u", "c", "fact", none, 1, 0, 0, 0, false⟩,
                 ⟨"b", "u", "c", "fact", none, 2, 0, 0, 0, false⟩] "u" 1 9).1 "u" →
            ∀ s ∈ activeRows (pruneMems
                [⟨"a", "u", "c", "fact", none, 1, 0, 0, 0, false⟩,
                 ⟨"b", "u", "c", "fact", none, 2, 0, 0, 0, false⟩] "u" 1 9).1 "u",
              pruneValue r ≤ pruneValue s) :=
  C3_prune_bound
    [⟨"a", "u", "c", "fact", none, 1, 0, 0, 0, false⟩,
     ⟨"b", "u", "c", "fact", none, 2, 0, 0, 0, false⟩] "u" 1 9
    (by simp [List.map_cons])

/-! ## Summarization trigger and session compression (pkg/agent/loop.go,
processMessage lines 325-342 and summarizeSession)

The LLM calls inside summarizeSession are oracles: batch is summarizeBatch
(whose error is swallowed, so it is a total String function), merge is the
merge Chat call (none = error, triggering the concatenation fallback). -/

/-- Mirror of the role and content of providers.Message as used by the
summarization path. -/
structure ChatMsg where
  role : String
  content : String
deriving DecidableEq, Repr

/-- Embedding of AgentLoop.estimateTokens: 4 characters per token, summed
with per-message integer division. -/
def estimateTokens (msgs : List ChatMsg) : ℕ :=
  (msgs.map fun m => m.content.length / 4).sum

/-- Scheduling decision of the compression trigger in processMessage: the
condition history > 20 or estimated tokens above 75% of the context window,
guarded by the per-session single-flight map (inFlight). -/
def summarizeTriggered (history : List ChatMsg) (contextWindow : ℕ)
    (inFlight : Bool) : Bool :=
  (decide (20 < history.length) ||
      decide (contextWindow * 75 / 100 < estimateTokens history)) && !inFlight

/-- Modelled from the spec: SessionManager.TruncateHistory is part of the
session package, which is not under src/; per the spec the summarization
path truncates history to the last 4 messages. -/
def truncateHistory (history : List ChatMsg) (n : ℕ) : List ChatMsg :=
  history.drop (history.length - n)

/-- Summary text produced by summarizeSession once the valid message list is
known: two-batch split-and-merge past 10 messages (with concatenation when
the merge call errors), single batch with the prior summary otherwise, plus
the omission note when an oversized message was dropped. -/
def notedSummary (batch : List ChatMsg → String → String)
    (merge : String → String → Option String) (validMessages : List ChatMsg)
    (omitted : Bool) (summary : String) : String :=
  let finalSummary :=
    if 10 < validMessages.length then
      let mid := validMessages.length / 2
      let s1 := batch (validMessages.take mid) ""
      let s2 := batch (validMessages.drop mid) ""
      match merge s1 s2 with
      | some s => s
      | none => s1 ++ " " ++ s2
    else batch validMessages summary
  if omitted && finalSummary != "" then
    finalSummary ++
      "\n[Note: Some oversized messages were omitted from this summary for efficiency.]"
  else finalSummary

/-- Final step of summarizeSession: store the summary and truncate the
history only when the summary is non-empty. -/
def storeIfNonEmpty (noted : String) (history : List ChatMsg) :
    Option (String × List ChatMsg) :=
  if noted != "" then some (noted, truncateHistory history 4) else none

/-- Embedding of AgentLoop.summarizeSession: early return when at most 4
messages remain, keep the last 4, filter the summarization target down to
user/assistant messages within half the context window (recording whether
any oversized message was omitted), summarize, and store only a non-empty
result. none means no state change. -/
def summarizeSession (batch : List ChatMsg → String → String)
    (merge : String → String → Option String) (contextWindow : ℕ)
    (history : List ChatMsg) (summary : String) :
    Option (String × List ChatMsg) :=
  if history.length ≤ 4 then none
  else
    let toSummarize := history.take (history.length - 4)
    let validMessages := toSummarize.filter fun m =>
      (m.role == "user" || m.role == "assistant") &&
        !(decide (contextWindow / 2 < m.content.length / 4))
    let omitted := toSummarize.any fun m =>
      (m.role == "user" || m.role == "assistant") &&
        decide (contextWindow / 2 < m.content.length / 4)
    if validMessages.isEmpty then none
    else storeIfNonEmpty (notedSummary batch merge validMessages omitted summary)
      history

lemma storeIfNonEmpty_some (noted : String) (history : List ChatMsg)
    (s : String) (h' : List ChatMsg)
    (h : storeIfNonEmpty noted history = some (s, h')) :
    s ≠ "" ∧ h' = truncateHistory history 4 := by
  rw [storeIfNonEmpty] at h
  split at h
  · rename_i hcond
    have heq := Option.some.inj h
    have hs : noted = s := congrArg Prod.fst heq
    have hh : truncateHistory history 4 = h' := congrArg Prod.snd heq
    subst hs
    exact ⟨by simpa using hcond, hh.symm⟩
  · exact absurd h (by simp)

/-- C8: the compression trigger fires exactly when the history exceeds 20
messages or the estimated token count exceeds 75% of the context window, and
only when no summarization is in flight for the session; and every
summarization run that stores a result stores a non-empty summary and
truncates the history to its last 4 messages. -/
theorem C8_summarization (history : List ChatMsg) (contextWindow : ℕ)
    (inFlight : Bool) (batch : List ChatMsg → String → String)
    (merge : String → String → Option String) (summary s : String)
    (h' : List ChatMsg)
    (hsome : summarizeSession batch merge contextWindow history summary =
      some (s, h')) :
    (summarizeTriggered history contextWindow inFlight = true ↔
        ((20 < history.length ∨
            contextWindow * 75 / 100 < estimateTokens history) ∧
          inFlight = false)) ∧
      s ≠ "" ∧ h' = history.drop (history.length - 4) := by
  refine ⟨?_, ?_⟩
  · rw [summarizeTriggered]
    simp [Bool.and_eq_true, Bool.or_eq_true, decide_eq_true_eq]
  · simp only [summarizeSession] at hsome
    split at hsome
    · exact absurd hsome (by simp)
    · split at hsome
      · exact absurd hsome (by simp)
      · have := storeIfNonEmpty_some _ _ _ _ hsome
        rw [truncateHistory] at this
        exact this

/-- Witness for C8 at a five-message history, context window 100, constant
batch oracle "S" and failing merge oracle. -/
theorem C8_summarization_witness :
    (summarizeTriggered [⟨"user", "hi"⟩, ⟨"user", "hi"⟩, ⟨"user", "hi"⟩,
          ⟨"user", "hi"⟩, ⟨"user", "hi"⟩] 100 false = true ↔
        ((20 < ([⟨"user", "hi"⟩, ⟨"user", "hi"⟩, ⟨"user", "hi"⟩, ⟨"user", "hi"⟩,
            ⟨"user", "hi"⟩] : List ChatMsg).length ∨
            100 * 75 / 100 < estimateTokens [⟨"user", "hi"⟩, ⟨"user", "hi"⟩,
              ⟨"user", "hi"⟩, ⟨"user", "hi"⟩, ⟨"user", "hi"⟩]) ∧
          false = false)) ∧
      "S" ≠ "" ∧
      ([⟨"user", "hi"⟩, ⟨"user", "hi"⟩, ⟨"user", "hi"⟩, ⟨"user", "hi"⟩] :
          List ChatMsg) =
        [⟨"user", "hi"⟩, ⟨"user", "hi"⟩, ⟨"user", "hi"⟩, ⟨"user", "hi"⟩,
          ⟨"user", "hi"⟩].drop
          (([⟨"user", "hi"⟩, ⟨"user", "hi"⟩, ⟨"user", "hi"⟩, ⟨"user", "hi"⟩,
            ⟨"user", "hi"⟩] : List ChatMsg).length - 4) :=
  C8_summarization [⟨"user", "hi"⟩, ⟨"user", "hi"⟩, ⟨"user", "hi"⟩,
      ⟨"user", "hi"⟩, ⟨"user", "hi"⟩] 100 false (fun _ _ => "S") (fun _ _ => none)
    "" "S" [⟨"user", "hi"⟩, ⟨"user", "hi"⟩, ⟨"user", "hi"⟩, ⟨"user", "hi"⟩]
    (by decide)

end MClaw
